import Mathlib

/-!
Verification development for the `premiere-to-csv` repository.

The source under scrutiny is `parser/timeline_flatten.py` (the timeline
flattener), `parser/timecode.py` (tick to timecode conversion) and their
callers.  The Python code works on `xml.etree.ElementTree` elements; we
shallowly embed the element tree as the inductive type `Elem` below and
translate every helper of the source file into a Lean function over it.

Modelling conventions, stated once here:

* Python dictionaries built by repeated assignment (`by_id[oid] = e`) are
  modelled as association lists in insertion order; lookup (`dGet`) returns
  the value of the *last* binding, matching dict overwrite semantics.
* Python truthiness is modelled explicitly: a string is falsy iff empty
  (`strTruthy`), an `ET.Element` is falsy iff it has no children
  (`elemTruthy`, matching `Element.__bool__`), and `x or y` on such values
  is `pyOrStr` / `pyOrElem`.
* `Element.iter()` is preorder traversal including the element itself
  (`iterList`); `find(".//T")` / `findall(".//T")` search strict
  descendants in document order (`findDesc` / `descList`), `find("T")`
  searches direct children (`findChild`), and `findall(".//A/B")` is
  `findPath2`.
* Python's unbounded recursion in `add_items` is modelled with an explicit
  fuel parameter: `none` means the computation has not completed within the
  given recursion budget (the Python code has no budget; a result that is
  `none` for every fuel is a non-terminating run).
* string operations (`strip`, `lower`, `endswith`, `isdigit`, `in`, ...)
  are implemented character-by-character over `String.data` so that every
  concrete run reduces inside the kernel; ASCII text is assumed throughout.
-/

/-- Shallow embedding of an `xml.etree.ElementTree.Element`: tag name,
attribute list, optional text, and child elements in document order. -/
inductive Elem where
  | mk (tag : String) (attrs : List (String × String)) (text : Option String)
      (children : List Elem)

/-- Tag name of an element. -/
def Elem.tag : Elem → String
  | .mk t _ _ _ => t

/-- Attribute list of an element. -/
def Elem.attrs : Elem → List (String × String)
  | .mk _ a _ _ => a

/-- Text content of an element (`None` is `none`). -/
def Elem.text : Elem → Option String
  | .mk _ _ x _ => x

/-- Children of an element in document order. -/
def Elem.children : Elem → List Elem
  | .mk _ _ _ c => c

/-- Does the list begin with the given pattern? (character-level helper;
all string operations in this file are implemented over `String.data` so
that concrete runs reduce inside the kernel). -/
def begins : List Char → List Char → Bool
  | [], _ => true
  | _ :: _, [] => false
  | p :: ps, c :: cs => p == c && begins ps cs

/-- Python `s.endswith(suf)` / Lean `String.endsWith`. -/
def strEndsW (s suf : String) : Bool := begins suf.data.reverse s.data.reverse

/-- Python `s.startswith(pre)`. -/
def strBeginsW (s pre : String) : Bool := begins pre.data s.data

/-- Occurrence test over character lists. -/
def listContainsPat (pat : List Char) : List Char → Bool
  | [] => begins pat []
  | c :: cs => begins pat (c :: cs) || listContainsPat pat cs

/-- Python `pat in s` substring test (`pat` non-empty at every call site). -/
def strContains (s pat : String) : Bool := listContainsPat pat.data s.data

/-- Python's default `str.strip()` whitespace set (ASCII model). -/
def pyIsSpace (c : Char) : Bool :=
  c == ' ' || c == '\t' || c == '\n' || c == '\r'

/-- Python `s.strip()`. -/
def strStrip (s : String) : String :=
  String.mk (((s.data.dropWhile pyIsSpace).reverse.dropWhile pyIsSpace).reverse)

/-- Numeric value of a digit string. -/
def digitsToNat (l : List Char) : Nat :=
  l.foldl (fun a c => a * 10 + (c.toNat - '0'.toNat)) 0

/-- Python `s.isdigit()` guard plus conversion: `some n` iff `s` is a
non-empty all-digit string (ASCII model of `str.isdigit`). -/
def strToNatQ (s : String) : Option Nat :=
  if !s.data.isEmpty && s.data.all Char.isDigit then some (digitsToNat s.data)
  else none

/-- Python `s.lower()` (ASCII model). -/
def strLower (s : String) : String := String.mk (s.data.map Char.toLower)

/-- `p.replace("\\", "/")` — the pattern is a single character, so this is a
character map. -/
def slashify (s : String) : String :=
  String.mk (s.data.map (fun c => if c == '\\' then '/' else c))

/-- Split a character list on a separator character. -/
def splitCh (sep : Char) : List Char → List (List Char)
  | [] => [[]]
  | c :: cs =>
    match splitCh sep cs with
    | [] => [[]]
    | g :: gs => if c == sep then [] :: g :: gs else (c :: g) :: gs

mutual

/-- `e.iter()`: preorder traversal, the element itself first. -/
def iterList : Elem → List Elem
  | .mk t a x cs => .mk t a x cs :: iterAll cs

/-- Preorder traversal of a list of elements (used for descendants). -/
def iterAll : List Elem → List Elem
  | [] => []
  | c :: cs => iterList c ++ iterAll cs

end

/-- Strict descendants of an element in document order. -/
def descList (e : Elem) : List Elem := iterAll e.children

/-- `elem.attrib.get(k)`. -/
def attrGet (e : Elem) (k : String) : Option String :=
  (e.attrs.find? (fun p => p.1 == k)).map (fun p => p.2)

/-- `elem.find(".//tag")`: first strict descendant with exactly this tag. -/
def findDesc (e : Elem) (tag : String) : Option Elem :=
  (descList e).find? (fun d => d.tag == tag)

/-- `elem.find(tag)`: first direct child with exactly this tag. -/
def findChild (e : Elem) (tag : String) : Option Elem :=
  e.children.find? (fun d => d.tag == tag)

/-- `elem.findall(".//a/b")`: for each strict descendant tagged `a` in
document order, its direct children tagged `b`. -/
def findPath2 (e : Elem) (a b : String) : List Elem :=
  ((descList e).filter (fun d => d.tag == a)).flatMap
    (fun d => d.children.filter (fun c => c.tag == b))

/-- Python string truthiness of an optional string: `None` and `""` are falsy. -/
def strTruthy : Option String → Bool
  | none => false
  | some s => !(s == "")

/-- Python `a or b` on optional strings. -/
def pyOrStr (a b : Option String) : Option String :=
  if strTruthy a then a else b

/-- Python truthiness of an `ET.Element`: an element is truthy iff it has
children (`Element.__bool__` is `len(children) != 0`). -/
def elemTruthy (e : Elem) : Bool := !e.children.isEmpty

/-- Python `a or b` where `a`, `b` are optional elements (e.g.
`by_id.get(ref) or by_uid.get(ref)`). -/
def pyOrElem (a b : Option Elem) : Option Elem :=
  match a with
  | some e => if elemTruthy e then some e else b
  | none => b

/-- Association-list lookup with dict semantics: the *last* binding of the
key wins (models repeated `d[k] = v` assignments in document order). -/
def dGet (m : List (String × Elem)) (k : String) : Option Elem :=
  match m with
  | [] => none
  | (k', v) :: rest =>
    match dGet rest k with
    | some r => some r
    | none => if k' == k then some v else none

/-- `_first_text(elem, tag)`: first direct child whose tag merely *ends with*
`tag` and has non-empty stripped text; otherwise the first strict descendant
with exactly tag `tag` and truthy text, whose stripped text is returned
(possibly empty). -/
def firstText (el : Elem) (tag : String) : Option String :=
  match el.children.find?
      (fun c => strEndsW c.tag tag && !(strStrip (c.text.getD "") == "")) with
  | some c => some (strStrip (c.text.getD ""))
  | none =>
    match findDesc el tag with
    | some t =>
      match t.text with
      | some txt => if txt == "" then none else some (strStrip txt)
      | none => none
    | none => none

/-- `_collect_objects` for `ObjectID`: pairs `(id, element)` in document
order, skipping falsy (absent or empty) identifiers. -/
def byIdPairs (root : Elem) : List (String × Elem) :=
  (iterList root).filterMap (fun e =>
    match attrGet e "ObjectID" with
    | some v => if v == "" then none else some (v, e)
    | none => none)

/-- `_collect_objects` for `ObjectUID`. -/
def byUidPairs (root : Elem) : List (String × Elem) :=
  (iterList root).filterMap (fun e =>
    match attrGet e "ObjectUID" with
    | some v => if v == "" then none else some (v, e)
    | none => none)

/-- `_discover_sequences`: name-to-element pairs for every element whose tag
ends with `Sequence` and whose `_first_text` name is truthy, in document
order (dict semantics: last same-named sequence wins). -/
def seqPairs (root : Elem) : List (String × Elem) :=
  (iterList root).filterMap (fun e =>
    if strEndsW e.tag "Sequence" then
      match firstText e "Name" with
      | some nm => if nm == "" then none else some (nm, e)
      | none => none
    else none)

/-- The three lookup tables `extract_rows` builds once per call. -/
structure Ctx where
  byId : List (String × Elem)
  byUid : List (String × Elem)
  seqByName : List (String × Elem)

/-- Build the context from the document root. -/
def mkCtx (root : Elem) : Ctx :=
  ⟨byIdPairs root, byUidPairs root, seqPairs root⟩

/-- Python `int(s)` after the `s.lstrip("-+").isdigit()` guard of `_ticks`:
some integer when the guard passes and `int` does not raise (at most one
sign character), otherwise `none`. -/
def pyIntParse (s : String) : Option Int :=
  let core := String.mk (s.data.dropWhile (fun c => c == '-' || c == '+'))
  match strToNatQ core with
  | none => none
  | some n =>
    let signCount := s.data.length - core.data.length
    if signCount == 0 then some (n : Int)
    else if signCount == 1 then
      if strBeginsW s "-" then some (-(n : Int)) else some (n : Int)
    else none

/-- `_ticks(el, tag)`: numeric tick value from the first strict descendant
with this tag. -/
def ticksOf (el : Elem) (tag : String) : Option Int :=
  match findDesc el tag with
  | none => none
  | some t =>
    match t.text with
    | none => none
    | some txt => if txt == "" then none else pyIntParse (strStrip txt)

/-- Image extensions tested by `_classify` (already lowercased names). -/
def imageExts : List String :=
  [".png", ".jpg", ".jpeg", ".tif", ".tiff", ".gif", ".bmp", ".webp"]

/-- Video extensions tested by `_classify`. -/
def videoExts : List String :=
  [".mp4", ".mov", ".m4v", ".avi", ".mxf", ".mkv"]

/-- `_classify(name, typ)`: `(ClipType, Source)`. -/
def classify (name : Option String) (typ : String) : String × String :=
  let n := strLower (name.getD "")
  let source :=
    if strContains n "artlist" then "Artlist"
    else if strContains n "colourbox" || strContains n "colorbox" then "Colourbox"
    else if strContains n "imago" then "Imago"
    else ""
  let c :=
    if typ == "Audio" then "audio"
    else if imageExts.any (fun ext => strEndsW n ext) then "image"
    else if videoExts.any (fun ext => strEndsW n ext) then "video"
    else if n == "graphic" || n == "white" ||
        (match name with
         | some s => !(s == "") && !(strContains s ".")
         | none => false) then "graphic"
    else "video"
  (c, source)

/-- `os.path.basename(p.replace("\\", "/"))`. -/
def basenameOf (p : String) : String :=
  String.mk ((splitCh '/' (slashify p).data).getLastD [])

/-- `_basename_from_paths`. -/
def basenameFromPaths (el : Elem) : Option String :=
  ["AbsolutePath", "RelativePath", "Path", "FilePath"].findSome? (fun tg =>
    match firstText el tg with
    | some p =>
      if p == "" then none
      else
        let b := basenameOf p
        if b == "" then none else some b
    | none => none)

/-- `_deep_name_scan`. -/
def deepNameScan (el : Elem) : Option String :=
  match ["ClipName", "DisplayName", "Title", "Name"].findSome? (fun tg =>
      match findDesc el tg with
      | some t =>
        match t.text with
        | some txt =>
          if txt == "" || strStrip txt == "" then none else some (strStrip txt)
        | none => none
      | none => none) with
  | some r => some r
  | none =>
    (iterList el).findSome? (fun d =>
      if strEndsW d.tag "Name" then
        match d.text with
        | some txt =>
          if txt == "" || strStrip txt == "" then none else some (strStrip txt)
        | none => none
      else none)

/-- Resolve one truthy reference string to a `Sequence` element, via
`by_id` then `by_uid` using Python `or` (element truthiness). -/
def refToSeq (ctx : Ctx) (r : Option String) : Option Elem :=
  match r with
  | none => none
  | some s =>
    if s == "" then none
    else
      match pyOrElem (dGet ctx.byId s) (dGet ctx.byUid s) with
      | some t => if strEndsW t.tag "Sequence" then some t else none
      | none => none

/-- One iteration of the key loop of `_find_sequence_reference` on a single
element: try `ObjectRef` then `ObjectURef`. -/
def seqRefAt (ctx : Ctx) (el : Elem) : Option Elem :=
  match refToSeq ctx (attrGet el "ObjectRef") with
  | some t => some t
  | none => refToSeq ctx (attrGet el "ObjectURef")

/-- `_find_sequence_reference(elem, by_id, by_uid)`: direct attributes first,
then every element of `elem.iter()` (which re-includes `elem`). -/
def findSeqRef (ctx : Ctx) (el : Elem) : Option Elem :=
  match seqRefAt ctx el with
  | some t => some t
  | none => (iterList el).findSome? (fun sub => seqRefAt ctx sub)

/-- `_resolve_name_and_nested(obj, by_id, by_uid, seq_by_name)`. -/
def resolveNameNested (ctx : Ctx) (obj : Elem) : Option String × Option Elem :=
  let name0 := firstText obj "Name"
  -- A) SubClip reference
  let stepA : Option String × Option Elem :=
    match findDesc obj "SubClip" with
    | none => (name0, none)
    | some sc =>
      let sr := pyOrStr (attrGet sc "ObjectRef") (attrGet sc "ObjectURef")
      let target : Option Elem :=
        match sr with
        | none => none
        | some r => pyOrElem (dGet ctx.byId r) (dGet ctx.byUid r)
      match target with
      | none => (name0, none)
      | some t =>
        if strEndsW t.tag "Sequence" then
          (pyOrStr name0 (firstText t "Name"), some t)
        else
          (pyOrStr (pyOrStr (pyOrStr name0 (firstText t "Name"))
            (deepNameScan t)) (basenameFromPaths t), none)
  -- B) any other ObjectRef/URef chain to a Sequence
  let stepB : Option String × Option Elem :=
    match stepA.2 with
    | some _ => stepA
    | none =>
      match findSeqRef ctx obj with
      | some sq => (pyOrStr stepA.1 (firstText sq "Name"), some sq)
      | none => (stepA.1, none)
  -- C) name matches a known sequence
  let stepC : Option String × Option Elem :=
    match stepB.2 with
    | some _ => stepB
    | none =>
      match stepB.1 with
      | some nm =>
        if nm == "" then stepB
        else
          match dGet ctx.seqByName nm with
          | some sq => (stepB.1, some sq)
          | none => stepB
      | none => stepB
  -- D) ensure some display name
  let name4 :=
    if strTruthy stepC.1 then stepC.1
    else pyOrStr (deepNameScan obj) (basenameFromPaths obj)
  (name4, stepC.2)

/-- One output row of `extract_rows`. -/
structure Row where
  kind : String
  track : Option Int
  name : Option String
  clipType : String
  source : String
  startTicks : Int
  endTicks : Int
deriving DecidableEq, Repr

/-- The candidate (`parent_row`) dictionary built for a track item. -/
def mkRow (kind : String) (tno : Option Int) (nm : Option String)
    (s e off : Int) : Row :=
  { kind := kind, track := tno, name := nm,
    clipType := (classify nm kind).1, source := (classify nm kind).2,
    startTicks := s + off, endTicks := e + off }

/-- Shift a row's ticks by `d` (used to state the offset-composition law). -/
def shiftRow (d : Int) (r : Row) : Row :=
  { r with startTicks := r.startTicks + d, endTicks := r.endTicks + d }

/-- Overwrite a row's track number (used to state how nested expansion
rewrites child rows' `Track` to the parent item's track number). -/
def setTrack (v : Int) (r : Row) : Row := { r with track := some v }

/-- Sort key used by `tracks_from_groups`: `9999 if idx is None else idx`. -/
def trackKey (x : Option Int × Elem) : Int :=
  match x.1 with
  | some i => i
  | none => 9999

/-- Stable insertion used to model Python's stable `list.sort(key=...)`:
an element is inserted before the first entry with a strictly larger-or-equal
key only when its own key is `≤`; equal keys keep their original order. -/
def insertTrack (x : Option Int × Elem) :
    List (Option Int × Elem) → List (Option Int × Elem)
  | [] => [x]
  | y :: ys => if trackKey x ≤ trackKey y then x :: y :: ys else y :: insertTrack x ys

/-- Stable sort by `trackKey` (Python's `list.sort` is stable; any stable
sort by the same key computes the same list). -/
def pySort : List (Option Int × Elem) → List (Option Int × Elem)
  | [] => []
  | x :: xs => insertTrack x (pySort xs)

/-- Reference extraction of one `TrackGroup` entry: try the `First` then the
`Second` slot, keeping a falsy ref from `First` when `Second` is absent
(the subsequent `if ref` truthiness guard filters falsy refs anyway). -/
def slotRef (tg : Elem) : Option String :=
  let r1 : Option String :=
    match findChild tg "First" with
    | some sl => pyOrStr (attrGet sl "ObjectRef") (attrGet sl "ObjectURef")
    | none => none
  if strTruthy r1 then r1
  else
    match findChild tg "Second" with
    | some sl => pyOrStr (attrGet sl "ObjectRef") (attrGet sl "ObjectURef")
    | none => r1

/-- `obj = (by_id.get(ref) or by_uid.get(ref)) if ref else None` for one
track-group entry. -/
def groupOf (ctx : Ctx) (tg : Elem) : Option Elem :=
  match slotRef tg with
  | some r =>
    if r == "" then none else pyOrElem (dGet ctx.byId r) (dGet ctx.byUid r)
  | none => none

/-- Track-group resolution shared verbatim by `extract_rows` (lines 224-240)
and the nested-sequence branch of `add_items` (lines 293-308): video and
audio track-group elements of a sequence, in document order. -/
def resolveGroupsOf (ctx : Ctx) (s : Elem) : List Elem × List Elem :=
  (findPath2 s "TrackGroups" "TrackGroup").foldl
    (fun acc tg =>
      match groupOf ctx tg with
      | none => acc
      | some o =>
        if strEndsW o.tag "VideoTrackGroup" then (acc.1 ++ [o], acc.2)
        else if strEndsW o.tag "AudioTrackGroup" then (acc.1, acc.2 ++ [o])
        else acc)
    ([], [])

/-- One entry of `tracks_from_groups`' intermediate list: declared index
(`int(idx)` when `idx and idx.isdigit()`, else `None`) and the track element
resolved by UID; `None` when the UID resolves to nothing. -/
def trackEntry (ctx : Ctx) (tr : Elem) : Option (Option Int × Elem) :=
  let idx : Option Int :=
    match attrGet tr "Index" with
    | some s =>
      match strToNatQ s with
      | some n => some (Int.ofNat n)
      | none => none
    | none => none
  let guid := pyOrStr (attrGet tr "ObjectURef") (attrGet tr "ObjectUID")
  match (match guid with
         | some g => dGet ctx.byUid g
         | none => none) with
  | some obj => some (idx, obj)
  | none => none

/-- `tracks_from_groups(groups)`. -/
def tracksFromGroups (ctx : Ctx) (groups : List Elem) :
    List (Option Int × Elem) :=
  pySort (groups.flatMap (fun g =>
    (findPath2 g "Tracks" "Track").filterMap (fun tr => trackEntry ctx tr)))

/-- `track_elem.findall(".//TrackItem")`. -/
def descTrackItems (tr : Elem) : List Elem :=
  (descList tr).filter (fun d => d.tag == "TrackItem")

/-- The two nested-track loops of the `add_items` nested branch: every
track of the list is processed with the *parent's* track number and the
accumulated offset. `rec` is the recursive `add_items` call. -/
def tracksRun (rec : Elem → String → Option Int → Int → Option (List Row)) :
    List (Option Int × Elem) → String → Option Int → Int → Option (List Row)
  | [], _, _, _ => some []
  | (_, tr) :: rest, k, t, o =>
    match rec tr k t o with
    | none => none
    | some a =>
      match tracksRun rec rest k t o with
      | none => none
      | some b => some (a ++ b)

/-- Rows contributed by a single `TrackItem` (`add_items` loop body).
`rec` is the recursive call used for nested-sequence expansion; `none`
propagates fuel exhaustion. -/
def itemRows (rec : Elem → String → Option Int → Int → Option (List Row))
    (ctx : Ctx) (expand incl : Bool) (obj : Elem) (kind : String)
    (tno : Option Int) (off : Int) : Option (List Row) :=
  match ticksOf obj "Start", ticksOf obj "End" with
  | some s, some e =>
    let nn := resolveNameNested ctx obj
    let row := mkRow kind tno nn.1 s e off
    match nn.2, expand with
    | some ns, true =>
      let gs := resolveGroupsOf ctx ns
      match tracksRun rec (tracksFromGroups ctx gs.1) "Video"
          (some (tno.getD 0)) (s + off) with
      | none => none
      | some v =>
        match tracksRun rec (tracksFromGroups ctx gs.2) "Audio"
            (some (tno.getD 0)) (s + off) with
        | none => none
        | some a => some ((if incl then [row] else []) ++ v ++ a)
    | _, _ => some [row]
  | _, _ => some []

/-- The `for obj in track_elem.findall(".//TrackItem")` loop of
`add_items`, over an explicit item list. -/
def itemsRun (rec : Elem → String → Option Int → Int → Option (List Row))
    (ctx : Ctx) (expand incl : Bool) :
    List Elem → String → Option Int → Int → Option (List Row)
  | [], _, _, _ => some []
  | obj :: rest, k, t, o =>
    match itemRows rec ctx expand incl obj k t o with
    | none => none
    | some r =>
      match itemsRun rec ctx expand incl rest k t o with
      | none => none
      | some rs => some (r ++ rs)

/-- `add_items(track_elem, kind, track_no, offset_ticks)` with an explicit
recursion budget; `none` means the budget was exhausted before the
(unbounded) Python recursion completed. -/
def addItemsF : Nat → Ctx → Bool → Bool → Elem → String → Option Int → Int →
    Option (List Row)
  | 0, _, _, _, _, _, _, _ => none
  | fuel + 1, ctx, expand, incl, tr, k, tno, off =>
    itemsRun (addItemsF fuel ctx expand incl) ctx expand incl
      (descTrackItems tr) k tno off

/-- The two top-level track loops of `extract_rows`: each track is processed
with its *own* resolved index (`idx if idx is not None else 0`) and offset 0. -/
def topTracksRun (rec : Elem → String → Option Int → Int → Option (List Row)) :
    List (Option Int × Elem) → String → Option (List Row)
  | [], _ => some []
  | (idx, tr) :: rest, k =>
    match rec tr k (some (idx.getD 0)) 0 with
    | none => none
    | some a =>
      match topTracksRun rec rest k with
      | none => none
      | some b => some (a ++ b)

/-- Main-sequence lookup of `extract_rows`: catalog first, then a fallback
scan over the whole document for a `Sequence`-tagged element whose
`_first_text` name equals the requested name. -/
def findMainSeq (ctx : Ctx) (root : Elem) (name : String) : Option Elem :=
  match dGet ctx.seqByName name with
  | some s => some s
  | none =>
    (iterList root).find? (fun e =>
      strEndsW e.tag "Sequence" && firstText e "Name" == some name)

/-- The body of `extract_rows` after the main sequence has been found:
resolve track groups, then walk video tracks before audio tracks. -/
def flattenSeqBody (fuel : Nat) (ctx : Ctx) (expand incl : Bool) (s : Elem) :
    Option (List Row) :=
  let gs := resolveGroupsOf ctx s
  match topTracksRun (addItemsF fuel ctx expand incl)
      (tracksFromGroups ctx gs.1) "Video" with
  | none => none
  | some v =>
    match topTracksRun (addItemsF fuel ctx expand incl)
        (tracksFromGroups ctx gs.2) "Audio" with
    | none => none
    | some a => some (v ++ a)

/-- `extract_rows(root, sequence_name, expand_nested, include_parent)`
with an explicit recursion budget. -/
def extractRowsF (fuel : Nat) (root : Elem) (name : String)
    (expand incl : Bool) : Option (List Row) :=
  let ctx := mkCtx root
  match findMainSeq ctx root name with
  | none => some []
  | some s => flattenSeqBody fuel ctx expand incl s

/-- `TICKS_PER_SECOND` of `parser/timecode.py`. -/
def TPS : Nat := 254016000000

/-- Python `round` (banker's rounding, half to even) of the exact rational
`num / den`, for `den > 0`.  The Python source computes the operand in
binary64; we model the arithmetic exactly, which agrees away from
representation boundaries. -/
def pyRoundHE (num den : Nat) : Nat :=
  if den < 2 * (num % den) then num / den + 1
  else if 2 * (num % den) < den then num / den
  else if (num / den) % 2 == 0 then num / den else num / den + 1

/-- Zero-padded two-digit field, `f"{n:02d}"` for non-negative `n`. -/
def pad2 (n : Nat) : String :=
  if n < 10 then "0" ++ toString n else toString n

/-- `ticks_to_tc_24fps(ticks)` of `parser/timecode.py`, modelled on the
validated non-negative domain (per the spec, negative ticks are a caller
precondition violation): `whole = int(seconds)` is `ticks / TPS`,
`frac * 24` is the exact rational `24 * (ticks % TPS) / TPS`, and
`frames = round(...)` uses Python's half-to-even rounding. -/
def ticks_to_tc_24fps (ticks : Nat) : String :=
  let whole := ticks / TPS
  let frames := pyRoundHE (24 * (ticks % TPS)) TPS
  let whole2 := if 13 ≤ frames then whole + 1 else whole
  let h := whole2 / 3600
  let m := (whole2 % 3600) / 60
  let s := whole2 % 60
  pad2 h ++ ":" ++ pad2 m ++ ":" ++ pad2 s

/-- Convenience: a `Name` child element with the given text. -/
def nmEl (s : String) : Elem := .mk "Name" [] (some s) []

/-- Convenience: a `TrackGroups/TrackGroup/First` subtree whose `First` slot
carries `ObjectRef = r`. -/
def tgRef (r : String) : Elem :=
  .mk "TrackGroups" [] none
    [.mk "TrackGroup" [] none [.mk "First" [("ObjectRef", r)] none []]]

/-- Convenience: a `VideoTrackGroup` with one `Tracks/Track` entry. -/
def vgOne (oid : String) (attrs : List (String × String)) : Elem :=
  .mk "VideoTrackGroup" [("ObjectID", oid)] none
    [.mk "Tracks" [] none [.mk "Track" attrs none []]]

/-- Nested-expansion document: sequence `Main` has one video track with
declared index 3 whose single item references nested sequence `Nested`;
`Nested` has one video track with declared index 0 holding one clip. -/
def c7ItemN : Elem :=
  .mk "TrackItem" [] none
    [nmEl "Clip.mp4", .mk "Start" [] (some "100") [],
     .mk "End" [] (some "200") []]

/-- The nested sequence's track element (UID `t2`). -/
def c7TrackN : Elem := .mk "VideoClipTrack" [("ObjectUID", "t2")] none [c7ItemN]

/-- The nested sequence `Nested`. -/
def c7SeqN : Elem :=
  .mk "Sequence" [("ObjectID", "seqN")] none [nmEl "Nested", tgRef "vg2"]

/-- Track group of `Nested`: one track, declared index 0, UID `t2`. -/
def c7VgN : Elem := vgOne "vg2" [("Index", "0"), ("ObjectURef", "t2")]

/-- The parent track item of `Main`: ticks 1000..5000, `SubClip` reference
to the nested sequence. -/
def c7ItemP : Elem :=
  .mk "TrackItem" [] none
    [.mk "Start" [] (some "1000") [], .mk "End" [] (some "5000") [],
     .mk "SubClip" [("ObjectRef", "seqN")] none []]

/-- The main sequence's track element (UID `t1`). -/
def c7TrackP : Elem := .mk "VideoClipTrack" [("ObjectUID", "t1")] none [c7ItemP]

/-- The main sequence `Main`. -/
def c7SeqM : Elem := .mk "Sequence" [] none [nmEl "Main", tgRef "vg1"]

/-- Track group of `Main`: one track, declared index 3, UID `t1`. -/
def c7VgM : Elem := vgOne "vg1" [("Index", "3"), ("ObjectURef", "t1")]

/-- Root of the nested-expansion document. -/
def c7Doc : Elem :=
  .mk "PremiereData" [] none [c7SeqM, c7VgM, c7TrackP, c7SeqN, c7VgN, c7TrackN]

/-- Context of the nested-expansion document. -/
def c7Ctx : Ctx := mkCtx c7Doc

/-- Empty-nested document: `Main`'s single item references sequence `Empty`,
which has no track groups at all, so its expansion yields zero rows. -/
def c1ItemP : Elem :=
  .mk "TrackItem" [] none
    [.mk "Start" [] (some "0") [], .mk "End" [] (some "10") [],
     .mk "SubClip" [("ObjectRef", "seqE")] none []]

/-- Track of the empty-nested document's main sequence. -/
def c1TrackP : Elem := .mk "VideoClipTrack" [("ObjectUID", "t1")] none [c1ItemP]

/-- The empty nested sequence `Empty` (it is truthy: it has a `Name` child). -/
def c1SeqE : Elem := .mk "Sequence" [("ObjectID", "seqE")] none [nmEl "Empty"]

/-- Main sequence of the empty-nested document. -/
def c1SeqM : Elem := .mk "Sequence" [] none [nmEl "Main", tgRef "vg1"]

/-- Root of the empty-nested document. -/
def c1Doc : Elem :=
  .mk "PremiereData" [] none
    [c1SeqM, vgOne "vg1" [("Index", "0"), ("ObjectURef", "t1")], c1TrackP, c1SeqE]

/-- Bad-ticks document: the single item declares `Start = 5`, `End = 3`. -/
def c3Item : Elem :=
  .mk "TrackItem" [] none
    [nmEl "x.mp4", .mk "Start" [] (some "5") [], .mk "End" [] (some "3") []]

/-- Track of the bad-ticks document. -/
def c3Track : Elem := .mk "VideoClipTrack" [("ObjectUID", "t1")] none [c3Item]

/-- Root of the bad-ticks document. -/
def c3Doc : Elem :=
  .mk "PremiereData" [] none
    [.mk "Sequence" [] none [nmEl "Main", tgRef "vg1"],
     vgOne "vg1" [("Index", "0"), ("ObjectURef", "t1")], c3Track]

/-- Big-index document: `Main` has two video tracks, one with declared index
10000 (UID `ta`, clip `A.mp4`), one with no declared index (UID `tb`, clip
`B.mp4`). -/
def c6TrackA : Elem :=
  .mk "VideoClipTrack" [("ObjectUID", "ta")] none
    [.mk "TrackItem" [] none
      [nmEl "A.mp4", .mk "Start" [] (some "0") [], .mk "End" [] (some "10") []]]

/-- The index-less track of the big-index document. -/
def c6TrackB : Elem :=
  .mk "VideoClipTrack" [("ObjectUID", "tb")] none
    [.mk "TrackItem" [] none
      [nmEl "B.mp4", .mk "Start" [] (some "0") [], .mk "End" [] (some "10") []]]

/-- Track group of the big-index document: entry with `Index="10000"` first,
index-less entry second. -/
def c6Vg : Elem :=
  .mk "VideoTrackGroup" [("ObjectID", "vg1")] none
    [.mk "Tracks" [] none
      [.mk "Track" [("Index", "10000"), ("ObjectURef", "ta")] none [],
       .mk "Track" [("ObjectURef", "tb")] none []]]

/-- Main sequence of the big-index document. -/
def c6SeqM : Elem := .mk "Sequence" [] none [nmEl "Main", tgRef "vg1"]

/-- Root of the big-index document. -/
def c6Doc : Elem :=
  .mk "PremiereData" [] none [c6SeqM, c6Vg, c6TrackA, c6TrackB]

/-- Cyclic document: sequence `A` nests `B` and `B` nests `A`. -/
def c2ItemA : Elem :=
  .mk "TrackItem" [] none
    [.mk "Start" [] (some "0") [], .mk "End" [] (some "10") [],
     .mk "SubClip" [("ObjectRef", "seqB")] none []]

/-- Track of sequence `A` (UID `tA`). -/
def c2TrackA : Elem := .mk "VideoClipTrack" [("ObjectUID", "tA")] none [c2ItemA]

/-- Item of sequence `B`, referencing back to `A`. -/
def c2ItemB : Elem :=
  .mk "TrackItem" [] none
    [.mk "Start" [] (some "0") [], .mk "End" [] (some "10") [],
     .mk "SubClip" [("ObjectRef", "seqA")] none []]

/-- Track of sequence `B` (UID `tB`). -/
def c2TrackB : Elem := .mk "VideoClipTrack" [("ObjectUID", "tB")] none [c2ItemB]

/-- Sequence `A` of the cyclic document. -/
def c2SeqA : Elem :=
  .mk "Sequence" [("ObjectID", "seqA")] none [nmEl "A", tgRef "vgA"]

/-- Sequence `B` of the cyclic document. -/
def c2SeqB : Elem :=
  .mk "Sequence" [("ObjectID", "seqB")] none [nmEl "B", tgRef "vgB"]

/-- Root of the cyclic document. -/
def c2Doc : Elem :=
  .mk "PremiereData" [] none
    [c2SeqA, vgOne "vgA" [("Index", "0"), ("ObjectURef", "tA")], c2TrackA,
     c2SeqB, vgOne "vgB" [("Index", "0"), ("ObjectURef", "tB")], c2TrackB]

/-- Context of the cyclic document. -/
def c2Ctx : Ctx := mkCtx c2Doc

/-- Bare-track document: `Main` has no `TrackGroups` at all, but a bare
video track node with a well-formed clip item sits directly in its subtree. -/
def c5Item : Elem :=
  .mk "TrackItem" [] none
    [nmEl "x.mp4", .mk "Start" [] (some "0") [], .mk "End" [] (some "10") []]

/-- Main sequence of the bare-track document, with the bare track inside. -/
def c5SeqM : Elem :=
  .mk "Sequence" [] none
    [nmEl "Main", .mk "VideoClipTrack" [] none [c5Item]]

/-- Root of the bare-track document. -/
def c5Doc : Elem := .mk "PremiereData" [] none [c5SeqM]

/-- A malformed track item: it has an `End` tick but no `Start`. -/
def c9Bad : Elem :=
  .mk "TrackItem" [] none [nmEl "bad.mp4", .mk "End" [] (some "5") []]

/-- A well-formed sibling item. -/
def c9Good1 : Elem :=
  .mk "TrackItem" [] none
    [nmEl "a.mp4", .mk "Start" [] (some "0") [], .mk "End" [] (some "1") []]

/-- Another well-formed sibling item. -/
def c9Good2 : Elem :=
  .mk "TrackItem" [] none
    [nmEl "b.mp4", .mk "Start" [] (some "2") [], .mk "End" [] (some "3") []]

/-- Claim C4 (corrected): within whole-second 10, the code emits
`"00:00:11"` whenever the sub-second remainder is at least 132300000001
ticks (exact `frac * 24 > 12.5`, so the rounded frame count reaches 13) and
`"00:00:10"` whenever it is at most 132299999999 ticks; the single boundary
tick `frac * 24 = 12.5` is excluded because there the binary64 evaluation of
the source and this exact-rational model may differ. -/
theorem c4_theorem (t : Nat) (h1 : 10 * TPS ≤ t) (h2 : t < 11 * TPS) :
    (132300000001 ≤ t % TPS → ticks_to_tc_24fps t = "00:00:11") ∧
    (t % TPS ≤ 132299999999 → ticks_to_tc_24fps t = "00:00:10") := by
  have hw : t / TPS = 10 := by unfold TPS at h1 h2 ⊢; omega
  constructor
  · intro hthr
    have hfr : 13 ≤ pyRoundHE (24 * (t % TPS)) TPS := by
      unfold TPS at hthr
      unfold pyRoundHE TPS
      split_ifs <;> omega
    simp only [ticks_to_tc_24fps, hw, if_pos hfr]
    rfl
  · intro hthr
    have hfr : ¬ 13 ≤ pyRoundHE (24 * (t % TPS)) TPS := by
      have hx : t % TPS < TPS := Nat.mod_lt _ (by unfold TPS; omega)
      unfold TPS at hthr hx
      unfold pyRoundHE TPS
      split_ifs <;> omega
    simp only [ticks_to_tc_24fps, hw, if_neg hfr]
    rfl

/-- Witness for C4: one tick above the rounding threshold formats as
`"00:00:11"`, and the largest clearly-below-threshold tick formats as
`"00:00:10"`. -/
theorem c4_witness :
    ticks_to_tc_24fps 2672460000001 = "00:00:11" ∧
    ticks_to_tc_24fps 2672459999999 = "00:00:10" :=
  ⟨(c4_theorem 2672460000001 (by decide) (by decide)).1 (by decide),
   (c4_theorem 2672459999999 (by decide) (by decide)).2 (by decide)⟩

/-- Counterexample for C4 as stated: the tick value 2677741416000 has
whole-seconds part 10 and fractional-second component times 24 equal to
exactly 12.999, yet it formats as `"00:00:11"`, not `"00:00:10"`
(`round(12.999) = 13` reaches the round-up threshold). -/
theorem c4_counterexample :
    2677741416000 / TPS = 10 ∧
    24 * (2677741416000 % TPS) * 1000 = 12999 * TPS ∧
    ticks_to_tc_24fps 2677741416000 = "00:00:11" := by
  refine ⟨by decide, by decide, ?_⟩
  rfl

/-- Claim C8 (corrected, first half): a flatten call whose requested
sequence name resolves to no sequence returns the empty row list without
failing. The return value is identical to that of an existing sequence with
no clips (see the counterexample), so nothing in the call itself signals the
two cases apart. -/
theorem c8_theorem (fuel : Nat) (root : Elem) (name : String) (ex incl : Bool)
    (h : findMainSeq (mkCtx root) root name = none) :
    extractRowsF fuel root name ex incl = some [] := by
  simp [extractRowsF, h]

/-- Witness for C8: the name `Missing` resolves to no sequence of the
empty-nested document, and the flatten call returns the empty list. -/
theorem c8_witness :
    findMainSeq (mkCtx c1Doc) c1Doc "Missing" = none ∧
    extractRowsF 5 c1Doc "Missing" true false = some [] :=
  ⟨rfl, c8_theorem 5 c1Doc "Missing" true false rfl⟩

/-- Counterexample for C8 as stated: an unknown sequence name and an
existing-but-clipless sequence produce *identical* results (`some []`), so
the flatten call does not signal the two outcomes distinctly. -/
theorem c8_counterexample :
    extractRowsF 5 c1Doc "Missing" true false = some [] ∧
    extractRowsF 5 c1Doc "Empty" true false = some [] ∧
    findMainSeq (mkCtx c1Doc) c1Doc "Missing" = none ∧
    findMainSeq (mkCtx c1Doc) c1Doc "Empty" = some c1SeqE :=
  ⟨rfl, rfl, rfl, rfl⟩

/-- Claim C5 (corrected): track resolution has only the group-based
strategy; when it yields no video and no audio tracks, the flatten result is
empty — there is no declared-UID fallback and no direct subtree scan for
bare track nodes. -/
theorem c5_theorem (fuel : Nat) (root : Elem) (name : String) (ex incl : Bool)
    (s : Elem) (h : findMainSeq (mkCtx root) root name = some s)
    (hv : tracksFromGroups (mkCtx root) (resolveGroupsOf (mkCtx root) s).1 = [])
    (ha : tracksFromGroups (mkCtx root) (resolveGroupsOf (mkCtx root) s).2 = []) :
    extractRowsF fuel root name ex incl = some [] := by
  simp [extractRowsF, h, flattenSeqBody, hv, ha, topTracksRun]

/-- Witness for C5: on the bare-track document the group-based strategy
resolves no tracks and the flatten result is empty. -/
theorem c5_witness :
    findMainSeq (mkCtx c5Doc) c5Doc "Main" = some c5SeqM ∧
    extractRowsF 5 c5Doc "Main" true false = some [] :=
  ⟨rfl, c5_theorem 5 c5Doc "Main" true false c5SeqM rfl rfl rfl⟩

/-- Counterexample for C5 as stated: the bare-track document has a bare
video track node with a well-formed clip item directly in the `Main`
sequence subtree, yet the flatten call yields no rows — no direct-fallback
strategy exists in the code. -/
theorem c5_counterexample :
    extractRowsF 5 c5Doc "Main" true false = some [] ∧
    findDesc c5SeqM "VideoClipTrack" = some (.mk "VideoClipTrack" [] none [c5Item]) ∧
    ticksOf c5Item "Start" = some 0 ∧ ticksOf c5Item "End" = some 10 :=
  ⟨rfl, rfl, rfl, rfl⟩

/-- Claim C1 (corrected): when a track item resolves to a nested sequence,
`expandNested` is true, `includeParentRow` is false and the nested
expansion contributes zero rows, the item contributes *zero* rows to the
output — the code has no safety net re-emitting the candidate row. -/
theorem c1_theorem (rec : Elem → String → Option Int → Int → Option (List Row))
    (ctx : Ctx) (obj : Elem) (k : String) (tno : Option Int) (off : Int)
    (s e : Int) (nm : Option String) (ns : Elem)
    (hs : ticksOf obj "Start" = some s) (he : ticksOf obj "End" = some e)
    (hr : resolveNameNested ctx obj = (nm, some ns))
    (hv : tracksRun rec (tracksFromGroups ctx (resolveGroupsOf ctx ns).1)
      "Video" (some (tno.getD 0)) (s + off) = some [])
    (ha : tracksRun rec (tracksFromGroups ctx (resolveGroupsOf ctx ns).2)
      "Audio" (some (tno.getD 0)) (s + off) = some []) :
    itemRows rec ctx true false obj k tno off = some [] := by
  simp [itemRows, hs, he, hr, hv, ha]

/-- Witness for C1: in the empty-nested document the parent item resolves to
the clipless sequence `Empty` and contributes zero rows. -/
theorem c1_witness :
    itemRows (addItemsF 3 (mkCtx c1Doc) true false) (mkCtx c1Doc) true false
      c1ItemP "Video" (some 0) 0 = some [] :=
  c1_theorem (addItemsF 3 (mkCtx c1Doc) true false) (mkCtx c1Doc) c1ItemP
    "Video" (some 0) 0 0 10 (some "Empty") c1SeqE rfl rfl rfl rfl rfl

/-- Counterexample for C1 as stated: with `expandNested=true` and
`includeParentRow=false` the whole flatten output of the empty-nested
document is the empty list — the item whose nested sequence expands to zero
rows contributes zero rows, not exactly one; the `expandNested=false` run
shows the very same item does produce a candidate row. -/
theorem c1_counterexample :
    extractRowsF 5 c1Doc "Main" true false = some [] ∧
    extractRowsF 5 c1Doc "Main" false false =
      some [{ kind := "Video", track := some 0, name := some "Empty",
              clipType := "graphic", source := "", startTicks := 0,
              endTicks := 10 }] :=
  ⟨rfl, rfl⟩

/-- Claim C9 (confirmed): a track item with a missing (unparseable) start or
end tick contributes nothing, and the surrounding item loop behaves exactly
as if the malformed item were absent: siblings before and after it are
processed unchanged and the run does not abort. -/
theorem c9_theorem (rec : Elem → String → Option Int → Int → Option (List Row))
    (ctx : Ctx) (ex incl : Bool) (xs : List Elem) (bad : Elem) (ys : List Elem)
    (k : String) (tno : Option Int) (off : Int)
    (hbad : ticksOf bad "Start" = none ∨ ticksOf bad "End" = none) :
    itemsRun rec ctx ex incl (xs ++ bad :: ys) k tno off =
    itemsRun rec ctx ex incl (xs ++ ys) k tno off := by
  induction xs with
  | nil =>
    simp only [List.nil_append]
    have hb : itemRows rec ctx ex incl bad k tno off = some [] := by
      rcases hbad with h | h
      · simp [itemRows, h]
      · rcases h' : ticksOf bad "Start" with _ | v <;> simp [itemRows, h', h]
    simp only [itemsRun, hb]
    rcases hy : itemsRun rec ctx ex incl ys k tno off with _ | rs <;> simp
  | cons x xs ih =>
    simp only [List.cons_append, itemsRun]
    rw [show (xs.append (bad :: ys)) = xs ++ bad :: ys from rfl,
      show (xs.append ys) = xs ++ ys from rfl, ih]

/-- Witness for C9: the malformed item `c9Bad` (no `Start` tick) is dropped
while its two well-formed siblings are processed. -/
theorem c9_witness :
    ticksOf c9Bad "Start" = none ∧
    itemsRun (addItemsF 2 (mkCtx c1Doc) false false) (mkCtx c1Doc) false false
      ([c9Good1] ++ c9Bad :: [c9Good2]) "Video" (some 0) 0 =
    itemsRun (addItemsF 2 (mkCtx c1Doc) false false) (mkCtx c1Doc) false false
      ([c9Good1] ++ [c9Good2]) "Video" (some 0) 0 :=
  ⟨rfl, c9_theorem (addItemsF 2 (mkCtx c1Doc) false false) (mkCtx c1Doc)
    false false [c9Good1] c9Bad [c9Good2] "Video" (some 0) 0 (Or.inl rfl)⟩

/-- Dict-build characterization: looking up `v` in an association list built
by document-order traversal with last-write-wins returns the element of the
*last* (most recently traversed) entry declaring identifier `v`. -/
theorem dGet_pairs (attr v : String) (L : List Elem) :
    dGet (L.filterMap (fun e =>
      match attrGet e attr with
      | some w => if w == "" then none else some (w, e)
      | none => none)) v
    = L.reverse.find? (fun e => attrGet e attr == some v && !(v == "")) := by
  induction L with
  | nil => rfl
  | cons e L ih =>
    have hrev : (e :: L).reverse = L.reverse ++ [e] := by simp
    rw [hrev, List.find?_append]
    have hone : [e].find? (fun e => attrGet e attr == some v && !(v == "")) =
        (match (match attrGet e attr with
                | some w => if w == "" then none else some (w, e)
                | none => none : Option (String × Elem)) with
         | some p => if p.1 == v then some e else none
         | none => none) := by
      rcases h : attrGet e attr with _ | w
      · simp [h]
      · by_cases hw : w = ""
        · subst hw
          by_cases hv : v = ""
          · simp [h, hv]
          · have : ("" : String) ≠ v := fun hx => hv hx.symm
            simp [h, hv, this]
        · by_cases hv : w = v
          · subst hv
            simp [h, hw]
          · simp [h, hw, hv, Ne.symm hv]
    rcases hc : (match attrGet e attr with
                 | some w => if w == "" then none else some (w, e)
                 | none => none : Option (String × Elem)) with _ | p
    · rw [List.filterMap_cons]
      rw [hc, ih]
      rw [hc] at hone
      rw [hone]
      rcases hd : L.reverse.find? (fun e => attrGet e attr == some v && !(v == "")) with _ | r <;> simp
    · obtain ⟨w, hw1, hw2, rfl⟩ :
          ∃ w, attrGet e attr = some w ∧ (w == "") = false ∧ p = (w, e) := by
        rcases h : attrGet e attr with _ | w
        · rw [h] at hc; simp at hc
        · rw [h] at hc
          by_cases hw : w = ""
          · subst hw; simp at hc
          · refine ⟨w, rfl, by simp [hw], ?_⟩
            change (if (w == "") = true then none
              else some (w, e) : Option (String × Elem)) = some p at hc
            rw [if_neg (by simp [hw] : ¬((w == "") = true))] at hc
            exact (Option.some_inj.mp hc).symm
      rw [List.filterMap_cons, hc]
      rw [hc] at hone
      simp only [dGet, ih, hone]
      rcases hd : L.reverse.find? (fun e => attrGet e attr == some v && !(v == "")) with _ | r <;> simp

/-- Claim C10 (confirmed): for every document, looking an identifier up in
the object index returns the *last* node in document traversal order that
declares it (`by_id[oid] = e` in a forward loop overwrites earlier
declarations, for both the `ObjectID` and the `ObjectUID` map); in
particular, when two distinct nodes declare the same identifier the earlier
one is unreachable through the index. -/
theorem c10_theorem (root : Elem) (v : String) :
    dGet (mkCtx root).byId v =
      (iterList root).reverse.find?
        (fun e => attrGet e "ObjectID" == some v && !(v == "")) ∧
    dGet (mkCtx root).byUid v =
      (iterList root).reverse.find?
        (fun e => attrGet e "ObjectUID" == some v && !(v == "")) :=
  ⟨dGet_pairs "ObjectID" v (iterList root),
   dGet_pairs "ObjectUID" v (iterList root)⟩

/-- Every element occurs in its own traversal. -/
theorem mem_iterList_self (e : Elem) : e ∈ iterList e := by
  cases e
  rw [iterList]
  exact List.mem_cons_self _ _

/-- Membership in the traversal of a list of elements. -/
theorem mem_iterAll_iff {a : Elem} {l : List Elem} :
    a ∈ iterAll l ↔ ∃ c ∈ l, a ∈ iterList c := by
  induction l with
  | nil => simp [iterAll]
  | cons c cs ih =>
    rw [iterAll]
    simp only [List.mem_append, ih, List.mem_cons]
    constructor
    · rintro (h | ⟨d, hd, had⟩)
      · exact ⟨c, Or.inl rfl, h⟩
      · exact ⟨d, Or.inr hd, had⟩
    · rintro ⟨d, hd | hd, had⟩
      · subst hd; exact Or.inl had
      · exact Or.inr ⟨d, hd, had⟩

/-- Transitivity of the descendant-or-self relation, bounded by size. -/
theorem iterList_trans_aux :
    ∀ n : Nat, ∀ c : Elem, sizeOf c ≤ n →
      ∀ a b : Elem, a ∈ iterList b → b ∈ iterList c → a ∈ iterList c := by
  intro n
  induction n with
  | zero =>
    intro c hc
    cases c with
    | mk t at_ x cs => simp at hc
  | succ n ih =>
    intro c hc a b hab hbc
    cases c with
    | mk t at_ x cs =>
      rw [iterList] at hbc ⊢
      rcases List.mem_cons.mp hbc with hb | hb
      · subst hb
        rw [iterList] at hab
        exact hab
      · rcases mem_iterAll_iff.mp hb with ⟨d, hd, hbd⟩
        have hsz : sizeOf d ≤ n := by
          have h1 : sizeOf d < sizeOf cs := List.sizeOf_lt_of_mem hd
          have h2 : sizeOf cs < sizeOf (Elem.mk t at_ x cs) := by
            simp only [Elem.mk.sizeOf_spec]
            omega
          simp at hc
          omega
        have had : a ∈ iterList d := ih d hsz a b hab hbd
        exact List.mem_cons_of_mem _ (mem_iterAll_iff.mpr ⟨d, hd, had⟩)

/-- Transitivity of the descendant-or-self relation. -/
theorem iterList_trans {a b c : Elem} (hab : a ∈ iterList b)
    (hbc : b ∈ iterList c) : a ∈ iterList c :=
  iterList_trans_aux (sizeOf c) c (Nat.le_refl _) a b hab hbc

/-- A successful `dGet` returns one of the stored values. -/
theorem dGet_mem {m : List (String × Elem)} {k : String} {v : Elem}
    (h : dGet m k = some v) : ∃ p ∈ m, p.2 = v := by
  induction m with
  | nil => simp [dGet] at h
  | cons p rest ih =>
    rcases p with ⟨k', w⟩
    rw [dGet] at h
    rcases hd : dGet rest k with _ | r
    · rw [hd] at h
      by_cases hk : k' == k
      · rw [if_pos hk] at h
        exact ⟨(k', w), List.mem_cons_self _ _, Option.some_inj.mp h⟩
      · rw [if_neg hk] at h
        simp at h
    · rw [hd] at h
      have hrv : r = v := Option.some_inj.mp h
      subst hrv
      obtain ⟨q, hq, hqv⟩ := ih hd
      exact ⟨q, List.mem_cons_of_mem _ hq, hqv⟩

/-- Values of the `ObjectUID` map are document elements. -/
theorem byUid_value_mem {root : Elem} {g : String} {v : Elem}
    (h : dGet (byUidPairs root) g = some v) : v ∈ iterList root := by
  obtain ⟨p, hp, hpv⟩ := dGet_mem h
  rw [byUidPairs] at hp
  obtain ⟨e, he, hfe⟩ := List.mem_filterMap.mp hp
  rcases hae : attrGet e "ObjectUID" with _ | w
  · rw [hae] at hfe; simp at hfe
  · rw [hae] at hfe
    change (if (w == "") = true then none
      else some (w, e) : Option (String × Elem)) = some p at hfe
    by_cases hw : (w == "") = true
    · rw [if_pos hw] at hfe; simp at hfe
    · rw [if_neg hw] at hfe
      have hpe : p.2 = e := by
        rw [← Option.some_inj.mp hfe]
      rw [hpv] at hpe
      rw [← hpe] at he
      exact he

/-- Membership is preserved by the stable insertion. -/
theorem mem_insertTrack {x p : Option Int × Elem}
    {l : List (Option Int × Elem)} :
    p ∈ insertTrack x l ↔ p = x ∨ p ∈ l := by
  induction l with
  | nil => simp [insertTrack]
  | cons y ys ih =>
    rw [insertTrack]
    by_cases h : trackKey x ≤ trackKey y
    · simp [h]
    · rw [if_neg h]
      simp only [List.mem_cons, ih]
      tauto

/-- Membership is preserved by the stable sort. -/
theorem mem_pySort {p : Option Int × Elem} {l : List (Option Int × Elem)} :
    p ∈ pySort l ↔ p ∈ l := by
  induction l with
  | nil => simp [pySort]
  | cons x xs ih =>
    rw [pySort, mem_insertTrack, ih]
    simp

/-- A resolved track entry's element comes from the `ObjectUID` map. -/
theorem trackEntry_value {ctx : Ctx} {tr : Elem} {i : Option Int} {obj : Elem}
    (h : trackEntry ctx tr = some (i, obj)) :
    ∃ g, dGet ctx.byUid g = some obj := by
  rcases hg : pyOrStr (attrGet tr "ObjectURef") (attrGet tr "ObjectUID") with _ | g
  · simp [trackEntry, hg] at h
  · rcases hget : dGet ctx.byUid g with _ | o
    · simp [trackEntry, hg, hget] at h
    · simp only [trackEntry, hg, hget] at h
      refine ⟨g, ?_⟩
      rw [hget]
      have hoo : o = obj := congrArg Prod.snd (Option.some_inj.mp h)
      rw [hoo]

/-- Every track element produced by `tracks_from_groups` on the real context
is an element of the document. -/
theorem tracksFromGroups_mem {root : Elem} {gs : List Elem} {i : Option Int}
    {tr : Elem} (h : (i, tr) ∈ tracksFromGroups (mkCtx root) gs) :
    tr ∈ iterList root := by
  rw [tracksFromGroups] at h
  obtain ⟨g, _, hmem⟩ := List.mem_flatMap.mp (mem_pySort.mp h)
  obtain ⟨te, _, hte⟩ := List.mem_filterMap.mp hmem
  obtain ⟨u, hu⟩ := trackEntry_value hte
  exact byUid_value_mem hu

/-- Decidable well-formedness of a document's tick fields: every element
whose `Start` and `End` both parse satisfies `0 ≤ Start ≤ End`. -/
def goodTicksB (root : Elem) : Bool :=
  (iterList root).all (fun e =>
    match ticksOf e "Start", ticksOf e "End" with
    | some s, some t => decide (0 ≤ s) && decide (s ≤ t)
    | _, _ => true)

/-- Pointwise reading of `goodTicksB`. -/
theorem goodTicks_spec {root : Elem} (hg : goodTicksB root = true) {e : Elem}
    {s t : Int} (he : e ∈ iterList root) (hs : ticksOf e "Start" = some s)
    (ht : ticksOf e "End" = some t) : 0 ≤ s ∧ s ≤ t := by
  have h := List.all_eq_true.mp hg e he
  rw [hs, ht] at h
  simpa using h

/-- Row invariant of claim C3: non-negative, ordered tick fields. -/
def RowsOK (rows : List Row) : Prop :=
  ∀ r ∈ rows, 0 ≤ r.startTicks ∧ r.startTicks ≤ r.endTicks

/-- A recursive-call candidate that preserves the row invariant on document
tracks at non-negative offsets. -/
def RecOK (root : Elem)
    (rec : Elem → String → Option Int → Int → Option (List Row)) : Prop :=
  ∀ tr k tno off rows, tr ∈ iterList root → (0 : Int) ≤ off →
    rec tr k tno off = some rows → RowsOK rows

/-- The nested-track loop preserves the row invariant. -/
theorem tracksRun_bounds {root : Elem}
    {rec : Elem → String → Option Int → Int → Option (List Row)}
    (hrec : RecOK root rec) :
    ∀ l k tno off rows, (∀ p ∈ l, p.2 ∈ iterList root) → (0 : Int) ≤ off →
      tracksRun rec l k tno off = some rows → RowsOK rows := by
  intro l
  induction l with
  | nil =>
    intro k tno off rows _ _ h
    simp only [tracksRun] at h
    rw [← Option.some_inj.mp h]
    intro r hr
    simp at hr
  | cons p rest ih =>
    rcases p with ⟨i, tr⟩
    intro k tno off rows hmem hoff h
    simp only [tracksRun] at h
    rcases h1 : rec tr k tno off with _ | a
    · rw [h1] at h; simp at h
    · rw [h1] at h
      rcases h2 : tracksRun rec rest k tno off with _ | b
      · rw [h2] at h; simp at h
      · rw [h2] at h
        rw [← Option.some_inj.mp h]
        intro r hr
        rcases List.mem_append.mp hr with hra | hrb
        · exact hrec tr k tno off a (hmem (i, tr) (List.mem_cons_self _ _))
            hoff h1 r hra
        · exact ih k tno off b (fun q hq => hmem q (List.mem_cons_of_mem _ hq))
            hoff h2 r hrb

/-- A single item's contribution preserves the row invariant. -/
theorem itemRows_bounds {root : Elem}
    {rec : Elem → String → Option Int → Int → Option (List Row)}
    (hrec : RecOK root rec) (hg : goodTicksB root = true) (ex incl : Bool) :
    ∀ obj k tno off rows, obj ∈ iterList root → (0 : Int) ≤ off →
      itemRows rec (mkCtx root) ex incl obj k tno off = some rows →
      RowsOK rows := by
  intro obj k tno off rows hobj hoff h
  rcases hs : ticksOf obj "Start" with _ | s
  · simp only [itemRows, hs] at h
    rw [← Option.some_inj.mp h]
    intro r hr; simp at hr
  rcases he : ticksOf obj "End" with _ | e
  · simp only [itemRows, hs, he] at h
    rw [← Option.some_inj.mp h]
    intro r hr; simp at hr
  have hbound := goodTicks_spec hg hobj hs he
  have hrow : 0 ≤ (mkRow k tno (resolveNameNested (mkCtx root) obj).1 s e off).startTicks ∧
      (mkRow k tno (resolveNameNested (mkCtx root) obj).1 s e off).startTicks ≤
      (mkRow k tno (resolveNameNested (mkCtx root) obj).1 s e off).endTicks := by
    simp only [mkRow]
    omega
  rcases hns : (resolveNameNested (mkCtx root) obj).2 with _ | ns
  · simp only [itemRows, hs, he, hns] at h
    rcases ex <;>
    · rw [← Option.some_inj.mp h]
      intro r hr
      rcases List.mem_singleton.mp hr with rfl
      exact hrow
  rcases hex : ex with _ | _
  · subst hex
    simp only [itemRows, hs, he, hns] at h
    rw [← Option.some_inj.mp h]
    intro r hr
    rcases List.mem_singleton.mp hr with rfl
    exact hrow
  · subst hex
    have hoff2 : (0 : Int) ≤ s + off := by omega
    rcases hv : tracksRun rec
        (tracksFromGroups (mkCtx root) (resolveGroupsOf (mkCtx root) ns).1)
        "Video" (some (tno.getD 0)) (s + off) with _ | v
    · simp only [itemRows, hs, he, hns, hv] at h
      exact absurd h (by simp)
    rcases ha : tracksRun rec
        (tracksFromGroups (mkCtx root) (resolveGroupsOf (mkCtx root) ns).2)
        "Audio" (some (tno.getD 0)) (s + off) with _ | a
    · simp only [itemRows, hs, he, hns, hv, ha] at h
      exact absurd h (by simp)
    simp only [itemRows, hs, he, hns, hv, ha] at h
    rw [← Option.some_inj.mp h]
    intro r hr
    rcases List.mem_append.mp hr with hr1 | hra
    · rcases List.mem_append.mp hr1 with hrp | hrv
      · rcases incl with _ | _
        · simp at hrp
        · rcases List.mem_singleton.mp (by simpa using hrp) with rfl
          exact hrow
      · exact tracksRun_bounds hrec _ "Video" (some (tno.getD 0)) (s + off) v
          (fun q hq => by
            rcases q with ⟨qi, qtr⟩
            exact tracksFromGroups_mem hq) hoff2 hv r hrv
    · exact tracksRun_bounds hrec _ "Audio" (some (tno.getD 0)) (s + off) a
        (fun q hq => by
          rcases q with ⟨qi, qtr⟩
          exact tracksFromGroups_mem hq) hoff2 ha r hra

/-- The item loop preserves the row invariant. -/
theorem itemsRun_bounds {root : Elem}
    {rec : Elem → String → Option Int → Int → Option (List Row)}
    (hrec : RecOK root rec) (hg : goodTicksB root = true) (ex incl : Bool) :
    ∀ items k tno off rows, (∀ it ∈ items, it ∈ iterList root) →
      (0 : Int) ≤ off →
      itemsRun rec (mkCtx root) ex incl items k tno off = some rows →
      RowsOK rows := by
  intro items
  induction items with
  | nil =>
    intro k tno off rows _ _ h
    simp only [itemsRun] at h
    rw [← Option.some_inj.mp h]
    intro r hr; simp at hr
  | cons obj rest ih =>
    intro k tno off rows hmem hoff h
    simp only [itemsRun] at h
    rcases h1 : itemRows rec (mkCtx root) ex incl obj k tno off with _ | a
    · rw [h1] at h; simp at h
    · rw [h1] at h
      rcases h2 : itemsRun rec (mkCtx root) ex incl rest k tno off with _ | b
      · rw [h2] at h; simp at h
      · rw [h2] at h
        rw [← Option.some_inj.mp h]
        intro r hr
        rcases List.mem_append.mp hr with hra | hrb
        · exact itemRows_bounds hrec hg ex incl obj k tno off a
            (hmem obj (List.mem_cons_self _ _)) hoff h1 r hra
        · exact ih k tno off b (fun q hq => hmem q (List.mem_cons_of_mem _ hq))
            hoff h2 r hrb

/-- `add_items` preserves the row invariant at every fuel. -/
theorem addItemsF_bounds {root : Elem} (hg : goodTicksB root = true)
    (ex incl : Bool) :
    ∀ fuel : Nat, RecOK root (addItemsF fuel (mkCtx root) ex incl) := by
  intro fuel
  induction fuel with
  | zero =>
    intro tr k tno off rows _ _ h
    simp [addItemsF] at h
  | succ n ih =>
    intro tr k tno off rows htr hoff h
    rw [addItemsF] at h
    have hitems : ∀ it ∈ descTrackItems tr, it ∈ iterList root := by
      intro it hit
      have h1 : it ∈ descList tr := (List.mem_filter.mp hit).1
      have h2 : it ∈ iterList tr := by
        cases tr with
        | mk t a x cs =>
          rw [iterList]
          exact List.mem_cons_of_mem _ h1
      exact iterList_trans h2 htr
    exact itemsRun_bounds ih hg ex incl (descTrackItems tr) k tno off rows
      hitems hoff h

/-- The top-level track loop preserves the row invariant. -/
theorem topTracksRun_bounds {root : Elem}
    {rec : Elem → String → Option Int → Int → Option (List Row)}
    (hrec : RecOK root rec) :
    ∀ l k rows, (∀ p ∈ l, p.2 ∈ iterList root) →
      topTracksRun rec l k = some rows → RowsOK rows := by
  intro l
  induction l with
  | nil =>
    intro k rows _ h
    simp only [topTracksRun] at h
    rw [← Option.some_inj.mp h]
    intro r hr; simp at hr
  | cons p rest ih =>
    rcases p with ⟨i, tr⟩
    intro k rows hmem h
    simp only [topTracksRun] at h
    rcases h1 : rec tr k (some (i.getD 0)) 0 with _ | a
    · rw [h1] at h; simp at h
    · rw [h1] at h
      rcases h2 : topTracksRun rec rest k with _ | b
      · rw [h2] at h; simp at h
      · rw [h2] at h
        rw [← Option.some_inj.mp h]
        intro r hr
        rcases List.mem_append.mp hr with hra | hrb
        · exact hrec tr k (some (i.getD 0)) 0 a
            (hmem (i, tr) (List.mem_cons_self _ _)) le_rfl h1 r hra
        · exact ih k b (fun q hq => hmem q (List.mem_cons_of_mem _ hq)) h2 r hrb

/-- Claim C3 (corrected): provided every item of the document declares
well-formed ticks (`0 ≤ Start ≤ End`, checked by `goodTicksB`), every row
emitted by a completed flatten call satisfies
`0 ≤ StartTicks ≤ EndTicks`.  Without that precondition the code copies
bad tick values into rows unchecked (see the counterexample). -/
theorem c3_theorem (fuel : Nat) (root : Elem) (name : String) (ex incl : Bool)
    (rows : List Row) (hg : goodTicksB root = true)
    (h : extractRowsF fuel root name ex incl = some rows) : RowsOK rows := by
  rcases hm : findMainSeq (mkCtx root) root name with _ | s
  · simp only [extractRowsF, hm] at h
    rw [← Option.some_inj.mp h]
    intro r hr; simp at hr
  · simp only [extractRowsF, hm, flattenSeqBody] at h
    rcases hv : topTracksRun (addItemsF fuel (mkCtx root) ex incl)
        (tracksFromGroups (mkCtx root) (resolveGroupsOf (mkCtx root) s).1)
        "Video" with _ | v
    · rw [hv] at h; simp at h
    rcases ha : topTracksRun (addItemsF fuel (mkCtx root) ex incl)
        (tracksFromGroups (mkCtx root) (resolveGroupsOf (mkCtx root) s).2)
        "Audio" with _ | a
    · rw [hv, ha] at h; simp at h
    rw [hv, ha] at h
    rw [← Option.some_inj.mp h]
    intro r hr
    rcases List.mem_append.mp hr with hrv | hra
    · exact topTracksRun_bounds (addItemsF_bounds hg ex incl fuel) _ "Video" v
        (fun q hq => by
          rcases q with ⟨qi, qtr⟩
          exact tracksFromGroups_mem hq) hv r hrv
    · exact topTracksRun_bounds (addItemsF_bounds hg ex incl fuel) _ "Audio" a
        (fun q hq => by
          rcases q with ⟨qi, qtr⟩
          exact tracksFromGroups_mem hq) ha r hra

/-- Witness for C3: the nested-expansion document has well-formed ticks and
its single output row satisfies the invariant. -/
theorem c3_witness :
    goodTicksB c7Doc = true ∧
    (0 : Int) ≤ (1100 : Int) ∧ (1100 : Int) ≤ (1200 : Int) :=
  ⟨rfl,
   c3_theorem 5 c7Doc "Main" true false
     [{ kind := "Video", track := some 3, name := some "Clip.mp4",
        clipType := "video", source := "", startTicks := 1100,
        endTicks := 1200 }] rfl rfl
     { kind := "Video", track := some 3, name := some "Clip.mp4",
       clipType := "video", source := "", startTicks := 1100,
       endTicks := 1200 } (List.mem_singleton_self _)⟩

/-- Counterexample for C3 as stated: a document whose item declares
`Start = 5`, `End = 3` flattens to a row with `StartTicks = 5 > EndTicks = 3`
— the invariant does not hold for every document. -/
theorem c3_counterexample :
    extractRowsF 5 c3Doc "Main" true false =
      some [{ kind := "Video", track := some 0, name := some "x.mp4",
              clipType := "video", source := "", startTicks := 5,
              endTicks := 3 }] ∧
    ¬ ((5 : Int) ≤ (3 : Int)) :=
  ⟨rfl, by decide⟩

/-- Stable insertion preserves sortedness by the 9999-sentinel key. -/
theorem sorted_insertTrack {x : Option Int × Elem}
    {l : List (Option Int × Elem)}
    (h : l.Sorted (fun a b => trackKey a ≤ trackKey b)) :
    (insertTrack x l).Sorted (fun a b => trackKey a ≤ trackKey b) := by
  induction l with
  | nil => simp [insertTrack]
  | cons y ys ih =>
    rw [insertTrack]
    rcases List.sorted_cons.mp h with ⟨hy, hys⟩
    by_cases hk : trackKey x ≤ trackKey y
    · rw [if_pos hk]
      refine List.sorted_cons.mpr ⟨?_, h⟩
      intro b hb
      rcases List.mem_cons.mp hb with rfl | hb
      · exact hk
      · exact le_trans hk (hy b hb)
    · rw [if_neg hk]
      refine List.sorted_cons.mpr ⟨?_, ih hys⟩
      intro b hb
      rcases mem_insertTrack.mp hb with rfl | hb
      · exact le_of_not_le hk
      · exact hy b hb

/-- Stable insertion is a permutation of consing. -/
theorem perm_insertTrack (x : Option Int × Elem)
    (l : List (Option Int × Elem)) : List.Perm (insertTrack x l) (x :: l) := by
  induction l with
  | nil => rfl
  | cons y ys ih =>
    rw [insertTrack]
    by_cases hk : trackKey x ≤ trackKey y
    · rw [if_pos hk]
    · rw [if_neg hk]
      exact (ih.cons y).trans (List.Perm.swap x y ys)

/-- The modelled Python stable sort is sorted by the sentinel key. -/
theorem sorted_pySort (l : List (Option Int × Elem)) :
    (pySort l).Sorted (fun a b => trackKey a ≤ trackKey b) := by
  induction l with
  | nil => simp [pySort]
  | cons x xs ih => exact sorted_insertTrack ih

/-- The modelled Python stable sort permutes its input. -/
theorem perm_pySort (l : List (Option Int × Elem)) : List.Perm (pySort l) l := by
  induction l with
  | nil => rfl
  | cons x xs ih => exact (perm_insertTrack x (pySort xs)).trans (ih.cons x)

/-- The item loop is an append homomorphism: items are processed strictly in
list (document) order. -/
theorem itemsRun_append
    (rec : Elem → String → Option Int → Int → Option (List Row)) (ctx : Ctx)
    (ex incl : Bool) (xs ys : List Elem) (k : String) (tno : Option Int)
    (off : Int) :
    itemsRun rec ctx ex incl (xs ++ ys) k tno off =
    (match itemsRun rec ctx ex incl xs k tno off with
     | none => none
     | some a =>
       match itemsRun rec ctx ex incl ys k tno off with
       | none => none
       | some b => some (a ++ b)) := by
  induction xs with
  | nil =>
    simp only [List.nil_append, itemsRun]
    rcases hy : itemsRun rec ctx ex incl ys k tno off with _ | b <;> simp
  | cons x xs ih =>
    simp only [List.cons_append, itemsRun]
    rw [show (xs.append ys) = xs ++ ys from rfl, ih]
    rcases h1 : itemRows rec ctx ex incl x k tno off with _ | a
    · rfl
    rcases h2 : itemsRun rec ctx ex incl xs k tno off with _ | b
    · rfl
    rcases h3 : itemsRun rec ctx ex incl ys k tno off with _ | c <;>
      simp [List.append_assoc]

/-- Claim C6 (corrected): the ordering contract of the flattener.
(1) The modelled stable sort is sorted by the sentinel key and permutes its
input; (2) every resolved track list (`tracks_from_groups`) is sorted
ascending by `trackKey`, where an index-less track counts as key 9999 — not
as positive infinity; (3) items are processed strictly in document order
(the item loop is an append homomorphism); (4) the flatten output is exactly
the video-track rows followed by the audio-track rows. -/
theorem c6_theorem :
    (∀ l : List (Option Int × Elem),
      (pySort l).Sorted (fun a b => trackKey a ≤ trackKey b) ∧
      List.Perm (pySort l) l) ∧
    (∀ (ctx : Ctx) (gs : List Elem),
      (tracksFromGroups ctx gs).Sorted (fun a b => trackKey a ≤ trackKey b)) ∧
    (∀ (rec : Elem → String → Option Int → Int → Option (List Row))
      (ctx : Ctx) (ex incl : Bool) (xs ys : List Elem) (k : String)
      (tno : Option Int) (off : Int),
      itemsRun rec ctx ex incl (xs ++ ys) k tno off =
      (match itemsRun rec ctx ex incl xs k tno off with
       | none => none
       | some a =>
         match itemsRun rec ctx ex incl ys k tno off with
         | none => none
         | some b => some (a ++ b))) ∧
    (∀ (fuel : Nat) (root : Elem) (name : String) (ex incl : Bool)
      (rows : List Row) (s : Elem) (v a : List Row),
      findMainSeq (mkCtx root) root name = some s →
      topTracksRun (addItemsF fuel (mkCtx root) ex incl)
        (tracksFromGroups (mkCtx root) (resolveGroupsOf (mkCtx root) s).1)
        "Video" = some v →
      topTracksRun (addItemsF fuel (mkCtx root) ex incl)
        (tracksFromGroups (mkCtx root) (resolveGroupsOf (mkCtx root) s).2)
        "Audio" = some a →
      extractRowsF fuel root name ex incl = some rows →
      rows = v ++ a) := by
  refine ⟨fun l => ⟨sorted_pySort l, perm_pySort l⟩,
    fun ctx gs => sorted_pySort _, itemsRun_append, ?_⟩
  intro fuel root name ex incl rows s v a hm hv ha h
  simp only [extractRowsF, hm, flattenSeqBody, hv, ha] at h
  exact (Option.some_inj.mp h).symm

/-- Witness for C6: the big-index document's two video rows decompose as
video rows followed by (no) audio rows. -/
theorem c6_witness :
    extractRowsF 5 c6Doc "Main" true false =
      some [{ kind := "Video", track := some 0, name := some "B.mp4",
              clipType := "video", source := "", startTicks := 0,
              endTicks := 10 },
            { kind := "Video", track := some 10000, name := some "A.mp4",
              clipType := "video", source := "", startTicks := 0,
              endTicks := 10 }] ∧
    ([{ kind := "Video", track := some 0, name := some "B.mp4",
        clipType := "video", source := "", startTicks := 0, endTicks := 10 },
      { kind := "Video", track := some 10000, name := some "A.mp4",
        clipType := "video", source := "", startTicks := 0,
        endTicks := 10 }] : List Row) =
      [{ kind := "Video", track := some 0, name := some "B.mp4",
         clipType := "video", source := "", startTicks := 0, endTicks := 10 },
       { kind := "Video", track := some 10000, name := some "A.mp4",
         clipType := "video", source := "", startTicks := 0,
         endTicks := 10 }] ++ [] :=
  ⟨rfl,
   c6_theorem.2.2.2 5 c6Doc "Main" true false _ c6SeqM _ [] rfl rfl rfl rfl⟩

/-- Counterexample for C6 as stated: in the big-index document the
index-less track (sentinel key 9999) sorts *before* the track with declared
index 10000, and its row is emitted first — index-less tracks are not
ordered last for every declared index value. -/
theorem c6_counterexample :
    tracksFromGroups (mkCtx c6Doc) (resolveGroupsOf (mkCtx c6Doc) c6SeqM).1 =
      [(none, c6TrackB), (some 10000, c6TrackA)] ∧
    trackKey (none, c6TrackB) = 9999 ∧
    trackKey (some 10000, c6TrackA) = 10000 ∧
    extractRowsF 5 c6Doc "Main" true false =
      some [{ kind := "Video", track := some 0, name := some "B.mp4",
              clipType := "video", source := "", startTicks := 0,
              endTicks := 10 },
            { kind := "Video", track := some 10000, name := some "A.mp4",
              clipType := "video", source := "", startTicks := 0,
              endTicks := 10 }] :=
  ⟨rfl, rfl, rfl, rfl⟩

/-- Row shifts compose additively. -/
theorem shiftRow_shiftRow (a b : Int) (r : Row) :
    shiftRow a (shiftRow b r) = shiftRow (b + a) r := by
  simp [shiftRow, Int.add_assoc]

/-- A freshly built row at offset `off` is the shifted offset-0 row. -/
theorem mkRow_shift (k : String) (tn : Option Int) (nm : Option String)
    (s e off : Int) :
    mkRow k tn nm s e off = shiftRow off (mkRow k tn nm s e 0) := by
  simp [mkRow, shiftRow]

/-- A freshly built row differs from one with another track number only in
the `Track` field. -/
theorem mkRow_track (k : String) (a b : Int) (nm : Option String)
    (s e off : Int) :
    mkRow k (some a) nm s e off = setTrack a (mkRow k (some b) nm s e off) := by
  simp [mkRow, setTrack]

/-- Offset-shift property of a recursive-call candidate: its rows at offset
`o` are its offset-0 rows shifted by `o`. -/
def ShiftOK (rec : Elem → String → Option Int → Int → Option (List Row)) :
    Prop :=
  ∀ tr k tn o, rec tr k tn o = (rec tr k tn 0).map (List.map (shiftRow o))

/-- Track-rewrite property of a recursive-call candidate: its rows with
parent track number `a` are its rows with any other track number, with the
`Track` field overwritten by `a`. -/
def TrackOK (rec : Elem → String → Option Int → Int → Option (List Row)) :
    Prop :=
  ∀ tr k (a b : Int) o,
    rec tr k (some a) o = (rec tr k (some b) o).map (List.map (setTrack a))

/-- The nested-track loop inherits the shift property. -/
theorem tracksRun_shift
    {rec : Elem → String → Option Int → Int → Option (List Row)}
    (hrec : ShiftOK rec) :
    ∀ l k tn o, tracksRun rec l k tn o =
      (tracksRun rec l k tn 0).map (List.map (shiftRow o)) := by
  intro l
  induction l with
  | nil => intro k tn o; simp [tracksRun]
  | cons p rest ih =>
    rcases p with ⟨i, tr⟩
    intro k tn o
    simp only [tracksRun]
    rw [hrec tr k tn o]
    rcases h1 : rec tr k tn 0 with _ | a
    · rfl
    rw [ih k tn o]
    rcases h2 : tracksRun rec rest k tn 0 with _ | b
    · rfl
    simp

/-- A single item's contribution inherits the shift property. -/
theorem itemRows_shift
    {rec : Elem → String → Option Int → Int → Option (List Row)}
    (hrec : ShiftOK rec) (ctx : Ctx) (ex incl : Bool) (obj : Elem)
    (k : String) (tn : Option Int) :
    ∀ o, itemRows rec ctx ex incl obj k tn o =
      (itemRows rec ctx ex incl obj k tn 0).map (List.map (shiftRow o)) := by
  intro o
  rcases hs : ticksOf obj "Start" with _ | s
  · simp [itemRows, hs]
  rcases he : ticksOf obj "End" with _ | e
  · simp [itemRows, hs, he]
  rcases hns : (resolveNameNested ctx obj).2 with _ | ns
  · rcases ex with _ | _ <;> simp [itemRows, hs, he, hns, mkRow_shift k tn _ s e o]
  rcases ex with _ | _
  · simp [itemRows, hs, he, hns, mkRow_shift k tn _ s e o]
  · simp only [itemRows, hs, he, hns]
    rw [tracksRun_shift hrec _ "Video" (some (tn.getD 0)) (s + o),
      tracksRun_shift hrec _ "Video" (some (tn.getD 0)) (s + 0),
      tracksRun_shift hrec _ "Audio" (some (tn.getD 0)) (s + o),
      tracksRun_shift hrec _ "Audio" (some (tn.getD 0)) (s + 0)]
    rcases hv : tracksRun rec
        (tracksFromGroups ctx (resolveGroupsOf ctx ns).1) "Video"
        (some (tn.getD 0)) 0 with _ | v
    · rfl
    rcases ha : tracksRun rec
        (tracksFromGroups ctx (resolveGroupsOf ctx ns).2) "Audio"
        (some (tn.getD 0)) 0 with _ | a
    · rfl
    simp only [Option.map_some', List.map_append, List.map_map]
    have hcomp : ∀ d : Int,
        (shiftRow o ∘ shiftRow d) = shiftRow (d + o) := by
      intro d
      funext r
      exact shiftRow_shiftRow o d r
    rcases incl with _ | _ <;>
      simp [mkRow_shift k tn _ s e o, hcomp, Int.add_zero, Function.comp]

/-- The item loop inherits the shift property. -/
theorem itemsRun_shift
    {rec : Elem → String → Option Int → Int → Option (List Row)}
    (hrec : ShiftOK rec) (ctx : Ctx) (ex incl : Bool) :
    ∀ items k tn o, itemsRun rec ctx ex incl items k tn o =
      (itemsRun rec ctx ex incl items k tn 0).map (List.map (shiftRow o)) := by
  intro items
  induction items with
  | nil => intro k tn o; simp [itemsRun]
  | cons obj rest ih =>
    intro k tn o
    simp only [itemsRun]
    rw [itemRows_shift hrec ctx ex incl obj k tn o]
    rcases h1 : itemRows rec ctx ex incl obj k tn 0 with _ | a
    · rfl
    rw [ih k tn o]
    rcases h2 : itemsRun rec ctx ex incl rest k tn 0 with _ | b
    · rfl
    simp

/-- `add_items` has the shift property at every fuel: its rows at offset `o`
are its offset-0 rows shifted by `o`. -/
theorem addItemsF_shift (ctx : Ctx) (ex incl : Bool) :
    ∀ fuel, ShiftOK (addItemsF fuel ctx ex incl) := by
  intro fuel
  induction fuel with
  | zero => intro tr k tn o; simp [addItemsF]
  | succ n ih =>
    intro tr k tn o
    rw [addItemsF, addItemsF]
    exact itemsRun_shift ih ctx ex incl (descTrackItems tr) k tn o

/-- The nested-track loop inherits the track-rewrite property. -/
theorem tracksRun_track
    {rec : Elem → String → Option Int → Int → Option (List Row)}
    (hrec : TrackOK rec) :
    ∀ l k (a b : Int) o, tracksRun rec l k (some a) o =
      (tracksRun rec l k (some b) o).map (List.map (setTrack a)) := by
  intro l
  induction l with
  | nil => intro k a b o; simp [tracksRun]
  | cons p rest ih =>
    rcases p with ⟨i, tr⟩
    intro k a b o
    simp only [tracksRun]
    rw [hrec tr k a b o]
    rcases h1 : rec tr k (some b) o with _ | x
    · rfl
    rw [ih k a b o]
    rcases h2 : tracksRun rec rest k (some b) o with _ | y
    · rfl
    simp

/-- A single item's contribution inherits the track-rewrite property. -/
theorem itemRows_track
    {rec : Elem → String → Option Int → Int → Option (List Row)}
    (hrec : TrackOK rec) (ctx : Ctx) (ex incl : Bool) (obj : Elem)
    (k : String) :
    ∀ (a b : Int) o, itemRows rec ctx ex incl obj k (some a) o =
      (itemRows rec ctx ex incl obj k (some b) o).map
        (List.map (setTrack a)) := by
  intro a b o
  rcases hs : ticksOf obj "Start" with _ | s
  · simp [itemRows, hs]
  rcases he : ticksOf obj "End" with _ | e
  · simp [itemRows, hs, he]
  rcases hns : (resolveNameNested ctx obj).2 with _ | ns
  · rcases ex with _ | _ <;>
      simp [itemRows, hs, he, hns, mkRow_track k a b _ s e o]
  rcases ex with _ | _
  · simp [itemRows, hs, he, hns, mkRow_track k a b _ s e o]
  · simp only [itemRows, hs, he, hns, Option.getD_some]
    rw [tracksRun_track hrec _ "Video" a b (s + o),
      tracksRun_track hrec _ "Audio" a b (s + o)]
    rcases hv : tracksRun rec
        (tracksFromGroups ctx (resolveGroupsOf ctx ns).1) "Video"
        (some b) (s + o) with _ | v
    · rfl
    rcases ha : tracksRun rec
        (tracksFromGroups ctx (resolveGroupsOf ctx ns).2) "Audio"
        (some b) (s + o) with _ | x
    · rfl
    rcases incl with _ | _ <;>
      simp [mkRow_track k a b _ s e o]

/-- The item loop inherits the track-rewrite property. -/
theorem itemsRun_track
    {rec : Elem → String → Option Int → Int → Option (List Row)}
    (hrec : TrackOK rec) (ctx : Ctx) (ex incl : Bool) :
    ∀ items k (a b : Int) o, itemsRun rec ctx ex incl items k (some a) o =
      (itemsRun rec ctx ex incl items k (some b) o).map
        (List.map (setTrack a)) := by
  intro items
  induction items with
  | nil => intro k a b o; simp [itemsRun]
  | cons obj rest ih =>
    intro k a b o
    simp only [itemsRun]
    rw [itemRows_track hrec ctx ex incl obj k a b o]
    rcases h1 : itemRows rec ctx ex incl obj k (some b) o with _ | x
    · rfl
    rw [ih k a b o]
    rcases h2 : itemsRun rec ctx ex incl rest k (some b) o with _ | y
    · rfl
    simp

/-- `add_items` has the track-rewrite property at every fuel: every row it
emits carries the track number it was called with, and changing that number
only rewrites the `Track` column. -/
theorem addItemsF_track (ctx : Ctx) (ex incl : Bool) :
    ∀ fuel, TrackOK (addItemsF fuel ctx ex incl) := by
  intro fuel
  induction fuel with
  | zero => intro tr k a b o; simp [addItemsF]
  | succ n ih =>
    intro tr k a b o
    rw [addItemsF, addItemsF]
    exact itemsRun_track ih ctx ex incl (descTrackItems tr) k a b o

/-- Walking a track list with the parent's track number at an accumulated
offset (as nested expansion does) equals walking it independently with each
track's own index at offset 0 (as a top-level flatten does) and then
shifting every row and overwriting its `Track` column. -/
theorem tracksRun_eq_top
    {rec : Elem → String → Option Int → Int → Option (List Row)}
    (hT : TrackOK rec) (hS : ShiftOK rec) :
    ∀ l k (c : Int) o, tracksRun rec l k (some c) o =
      (topTracksRun rec l k).map
        (List.map (fun r => setTrack c (shiftRow o r))) := by
  intro l
  induction l with
  | nil => intro k c o; simp [tracksRun, topTracksRun]
  | cons p rest ih =>
    rcases p with ⟨i, tr⟩
    intro k c o
    simp only [tracksRun, topTracksRun]
    have h1 : rec tr k (some c) o =
        (rec tr k (some (i.getD 0)) 0).map
          (List.map (fun r => setTrack c (shiftRow o r))) := by
      rw [hT tr k c (i.getD 0) o, hS tr k (some (i.getD 0)) o]
      rcases hx : rec tr k (some (i.getD 0)) 0 with _ | x
      · rfl
      · simp [Function.comp]
    rw [h1, ih k c o]
    rcases hx : rec tr k (some (i.getD 0)) 0 with _ | x
    · rfl
    rcases hy : topTracksRun rec rest k with _ | y
    · rfl
    simp

/-- Claim C7 (corrected): offset-composition law up to the `Track` column.
For a track item that resolves to nested sequence `ns` with start tick `s`
at accumulated offset `off`, the rows the `expandNested=true` traversal
emits for that item are exactly: the optional parent candidate row, followed
by the rows of an *independent* flatten of `ns` shifted by `s + off` — with
every child row's `Track` column overwritten by the parent's track number
(the independent flatten reports the nested sequence's own track numbers, so
the raw row sets differ in `Track`; see the counterexample). -/
theorem c7_theorem (fuel : Nat) (ctx : Ctx) (incl : Bool) (obj : Elem)
    (k : String) (tno : Option Int) (off : Int) (s e : Int)
    (nm : Option String) (ns : Elem)
    (hs : ticksOf obj "Start" = some s) (he : ticksOf obj "End" = some e)
    (hr : resolveNameNested ctx obj = (nm, some ns)) :
    itemRows (addItemsF fuel ctx true incl) ctx true incl obj k tno off =
    (flattenSeqBody fuel ctx true incl ns).map (fun rs =>
      (if incl then [mkRow k tno nm s e off] else []) ++
      rs.map (fun r => setTrack (tno.getD 0) (shiftRow (s + off) r))) := by
  simp only [itemRows, hs, he, hr]
  rw [tracksRun_eq_top (addItemsF_track ctx true incl fuel)
      (addItemsF_shift ctx true incl fuel) _ "Video" (tno.getD 0) (s + off),
    tracksRun_eq_top (addItemsF_track ctx true incl fuel)
      (addItemsF_shift ctx true incl fuel) _ "Audio" (tno.getD 0) (s + off)]
  simp only [flattenSeqBody]
  rcases hv : topTracksRun (addItemsF fuel ctx true incl)
      (tracksFromGroups ctx (resolveGroupsOf ctx ns).1) "Video" with _ | v
  · rfl
  rcases ha : topTracksRun (addItemsF fuel ctx true incl)
      (tracksFromGroups ctx (resolveGroupsOf ctx ns).2) "Audio" with _ | a
  · rfl
  simp [List.append_assoc]

/-- Witness for C7: the nested-expansion document's parent item (track 3,
start 1000) expands to exactly the independent flatten of `Nested`, shifted
by 1000 and with `Track` overwritten by 3. -/
theorem c7_witness :
    itemRows (addItemsF 3 c7Ctx true false) c7Ctx true false c7ItemP "Video"
      (some 3) 0 =
    (flattenSeqBody 3 c7Ctx true false c7SeqN).map (fun rs =>
      (if false then [mkRow "Video" (some 3) (some "Nested") 1000 5000 0]
       else []) ++
      rs.map (fun r => setTrack ((some (3 : Int)).getD 0)
        (shiftRow (1000 + 0) r))) :=
  c7_theorem 3 c7Ctx false c7ItemP "Video" (some 3) 0 1000 5000
    (some "Nested") c7SeqN rfl rfl rfl

/-- Counterexample for C7 as stated: flattening `Main` without expansion
gives one parent row standing for the nested sequence; replacing it by the
independently flattened nested sequence shifted by the parent's start tick
(1000) yields a row with `Track = 0` (the nested sequence's own track),
whereas the `expandNested=true` call emits the same row with `Track = 3`
(the parent's track) — the two row sets differ. -/
theorem c7_counterexample :
    extractRowsF 5 c7Doc "Main" false false =
      some [{ kind := "Video", track := some 3, name := some "Nested",
              clipType := "graphic", source := "", startTicks := 1000,
              endTicks := 5000 }] ∧
    extractRowsF 5 c7Doc "Main" true false =
      some [{ kind := "Video", track := some 3, name := some "Clip.mp4",
              clipType := "video", source := "", startTicks := 1100,
              endTicks := 1200 }] ∧
    (extractRowsF 5 c7Doc "Nested" true false).map
        (List.map (shiftRow 1000)) =
      some [{ kind := "Video", track := some 0, name := some "Clip.mp4",
              clipType := "video", source := "", startTicks := 1100,
              endTicks := 1200 }] ∧
    ¬ (([{ kind := "Video", track := some 3, name := some "Clip.mp4",
           clipType := "video", source := "", startTicks := 1100,
           endTicks := 1200 }] : List Row) =
       [{ kind := "Video", track := some 0, name := some "Clip.mp4",
          clipType := "video", source := "", startTicks := 1100,
          endTicks := 1200 }]) :=
  ⟨rfl, rfl, rfl, by decide⟩

/-- One expansion step on the cyclic document, sequence `A` side: if the
recursive call on `B`'s track is still running, so is the item loop of `A`'s
track. -/
theorem cycStepA (rec : Elem → String → Option Int → Int → Option (List Row))
    (h : rec c2TrackB "Video" (some 0) 0 = none) :
    itemsRun rec c2Ctx true false [c2ItemA] "Video" (some 0) 0 = none := by
  have hIR : itemRows rec c2Ctx true false c2ItemA "Video" (some 0) 0 = none := by
    simp only [itemRows,
      show ticksOf c2ItemA "Start" = some 0 from rfl,
      show ticksOf c2ItemA "End" = some 10 from rfl,
      show resolveNameNested c2Ctx c2ItemA = (some "B", some c2SeqB) from rfl,
      show tracksFromGroups c2Ctx (resolveGroupsOf c2Ctx c2SeqB).1 =
        [(some 0, c2TrackB)] from rfl,
      tracksRun, Option.getD_some, add_zero]
    have h2 : rec (Elem.mk "VideoClipTrack" [("ObjectUID", "tB")] none
        [c2ItemB]) "Video" (some 0) 0 = none := h
    rw [h2]
  simp only [itemsRun, hIR]

/-- One expansion step on the cyclic document, sequence `B` side. -/
theorem cycStepB (rec : Elem → String → Option Int → Int → Option (List Row))
    (h : rec c2TrackA "Video" (some 0) 0 = none) :
    itemsRun rec c2Ctx true false [c2ItemB] "Video" (some 0) 0 = none := by
  have hIR : itemRows rec c2Ctx true false c2ItemB "Video" (some 0) 0 = none := by
    simp only [itemRows,
      show ticksOf c2ItemB "Start" = some 0 from rfl,
      show ticksOf c2ItemB "End" = some 10 from rfl,
      show resolveNameNested c2Ctx c2ItemB = (some "A", some c2SeqA) from rfl,
      show tracksFromGroups c2Ctx (resolveGroupsOf c2Ctx c2SeqA).1 =
        [(some 0, c2TrackA)] from rfl,
      tracksRun, Option.getD_some, add_zero]
    have h2 : rec (Elem.mk "VideoClipTrack" [("ObjectUID", "tA")] none
        [c2ItemA]) "Video" (some 0) 0 = none := h
    rw [h2]
  simp only [itemsRun, hIR]

/-- On the cyclic document no recursion budget completes either track:
`A`'s expansion demands `B`'s and vice versa. -/
theorem cycNone : ∀ fuel,
    addItemsF fuel c2Ctx true false c2TrackA "Video" (some 0) 0 = none ∧
    addItemsF fuel c2Ctx true false c2TrackB "Video" (some 0) 0 = none := by
  intro fuel
  induction fuel with
  | zero => exact ⟨rfl, rfl⟩
  | succ n ih =>
    constructor
    · rw [addItemsF, show descTrackItems c2TrackA = [c2ItemA] from rfl]
      exact cycStepA _ ih.2
    · rw [addItemsF, show descTrackItems c2TrackB = [c2ItemB] from rfl]
      exact cycStepB _ ih.1

/-- Claim C2 (corrected): on a document where sequence `A` nests `B` and `B`
nests `A`, a flatten call with `expandNested=true` never completes — the
computation is still unfinished at *every* recursion budget, because the
code has no visited-set and no cycle detection; no structural-cycle error
exists anywhere in its interface (in the concrete Python runtime the
unbounded recursion dies with a `RecursionError`, not a structural-cycle
report). -/
theorem c2_theorem : ∀ fuel, extractRowsF fuel c2Doc "A" true false = none := by
  intro fuel
  simp only [extractRowsF,
    show findMainSeq (mkCtx c2Doc) c2Doc "A" = some c2SeqA from rfl,
    flattenSeqBody,
    show tracksFromGroups (mkCtx c2Doc)
      (resolveGroupsOf (mkCtx c2Doc) c2SeqA).1 = [(some 0, c2TrackA)] from rfl,
    topTracksRun, Option.getD_some]
  rw [show mkCtx c2Doc = c2Ctx from rfl]
  have h2 : addItemsF fuel c2Ctx true false
      (Elem.mk "VideoClipTrack" [("ObjectUID", "tA")] none [c2ItemA]) "Video"
      (some ((match attrGet (Elem.mk "Track"
          [("Index", "0"), ("ObjectURef", "tA")] none []) "Index" with
        | some s =>
          match strToNatQ s with
          | some n => some (Int.ofNat n)
          | none => none
        | none => none).getD 0)) 0 = none := (cycNone fuel).1
  rw [h2]

/-- Counterexample for C2 as stated: on the cyclic document the flatten call
has not terminated within recursion budget 25 (nor any other; the call
reports nothing, in particular no structural-cycle error). -/
theorem c2_counterexample :
    extractRowsF 25 c2Doc "A" true false = none ∧
    extractRowsF 50 c2Doc "A" true false = none := by
  constructor
  · simp only [extractRowsF,
      show findMainSeq (mkCtx c2Doc) c2Doc "A" = some c2SeqA from rfl,
      flattenSeqBody,
      show tracksFromGroups (mkCtx c2Doc)
        (resolveGroupsOf (mkCtx c2Doc) c2SeqA).1 =
        [(some 0, c2TrackA)] from rfl,
      topTracksRun, Option.getD_some]
    rw [show mkCtx c2Doc = c2Ctx from rfl]
    have h2 : addItemsF 25 c2Ctx true false
        (Elem.mk "VideoClipTrack" [("ObjectUID", "tA")] none [c2ItemA]) "Video"
        (some ((match attrGet (Elem.mk "Track"
            [("Index", "0"), ("ObjectURef", "tA")] none []) "Index" with
          | some s =>
            match strToNatQ s with
            | some n => some (Int.ofNat n)
            | none => none
          | none => none).getD 0)) 0 = none := (cycNone 25).1
    rw [h2]
  · simp only [extractRowsF,
      show findMainSeq (mkCtx c2Doc) c2Doc "A" = some c2SeqA from rfl,
      flattenSeqBody,
      show tracksFromGroups (mkCtx c2Doc)
        (resolveGroupsOf (mkCtx c2Doc) c2SeqA).1 =
        [(some 0, c2TrackA)] from rfl,
      topTracksRun, Option.getD_some]
    rw [show mkCtx c2Doc = c2Ctx from rfl]
    have h2 : addItemsF 50 c2Ctx true false
        (Elem.mk "VideoClipTrack" [("ObjectUID", "tA")] none [c2ItemA]) "Video"
        (some ((match attrGet (Elem.mk "Track"
            [("Index", "0"), ("ObjectURef", "tA")] none []) "Index" with
          | some s =>
            match strToNatQ s with
            | some n => some (Int.ofNat n)
            | none => none
          | none => none).getD 0)) 0 = none := (cycNone 50).1
    rw [h2]
